import Mathlib

/-!
Shallow embedding of the CPU-scheduling simulator in `Project1/main.go`
(FCFSSchedule, SJFSchedule, SJFPrioritySchedule, RRSchedule) and proofs
about it.  Go `int64` arithmetic is modelled with unbounded `Int` (no value
in any statement below approaches the overflow range); `float64` values
appear only in the three aggregate statistics, where every division the
program performs is modelled by `goDiv`, which marks a zero-divisor
division (Go yields NaN or ±Inf there) with a distinguished constructor.
Loops whose trip count is data-dependent (the tick loop of
SJFPrioritySchedule and the main loop of RRSchedule) are given explicit
fuel and return `Option`, `none` meaning the fuel ran out before the Go
loop's exit condition held.
-/

namespace Project1

/-- The `Process` struct of `main.go` (all fields `int64`). The Go zero
value for the computed fields is `0`. -/
structure Process where
  ProcessID : Int
  ArrivalTime : Int
  BurstDuration : Int
  Priority : Int
  Exit : Int
  Turnaround : Int
  Wait : Int
deriving DecidableEq, Repr

/-- The `TimeSlice` struct of `main.go`: one Gantt interval. -/
structure TimeSlice where
  PID : Int
  Start : Int
  Stop : Int
deriving DecidableEq, Repr

/-- One row of the schedule table (`[]string` in Go, built with
`fmt.Sprint` of seven integers; we keep the integers). Columns:
id, priority, burst, arrival, wait, turnaround, exit. -/
structure ScheduleRow where
  rID : Int
  rPriority : Int
  rBurst : Int
  rArrival : Int
  rWait : Int
  rTurnaround : Int
  rExit : Int
deriving DecidableEq, Repr

/-- Result of a Go `float64` expression as it occurs in the aggregate
statistics: either a finite rational value, or the non-finite value (NaN
or ±Inf) produced by a division whose divisor is zero. -/
inductive GoFloat where
  | fin (q : ℚ)
  | undef
deriving DecidableEq, Repr

/-- Go `float64` division as used for the aggregate statistics:
`a / b` is finite `a/b` when `b ≠ 0` and non-finite (NaN when `a = 0`,
±Inf otherwise) when `b = 0`. -/
def goDiv (a b : ℚ) : GoFloat :=
  if b = 0 then GoFloat.undef else GoFloat.fin (a / b)

/-- Insert `p` into `l` placing it before the first element `q` with
`less p q`; inserting a later element after all its ties makes the
resulting sort stable. -/
def insertBy (less : Process → Process → Bool) (p : Process) :
    List Process → List Process
  | [] => [p]
  | q :: qs => if less p q then p :: q :: qs else q :: insertBy less p qs

/-- Stable sort by the strict comparison `less`: the model of Go's
`sort.SliceStable(x, less)` (ties keep their original relative order). -/
def stableSortBy (less : Process → Process → Bool) (l : List Process) :
    List Process :=
  l.foldl (fun acc p => insertBy less p acc) []

/-! ## FCFSSchedule (main.go lines 96-146) -/

/-- The mutable locals of `FCFSSchedule`'s loop. `totalWait`,
`totalTurnaround` and `lastCompletion` are Go `float64` accumulators fed
only integers, so they are kept exact as `Int`. -/
structure FCFSState where
  serviceTime : Int
  waitingTime : Int
  totalWait : Int
  totalTurnaround : Int
  lastCompletion : Int
  schedule : List ScheduleRow
  gantt : List TimeSlice
deriving DecidableEq, Repr

/-- The `for i := range processes` loop of `FCFSSchedule`, one iteration
per process.  Note: `waitingTime` is reassigned only when
`ArrivalTime > 0` (the previous iteration's value is reused otherwise),
exactly as in the source. -/
def fcfsLoop (s : FCFSState) : List Process → FCFSState
  | [] => s
  | p :: rest =>
    let waitingTime :=
      if p.ArrivalTime > 0 then s.serviceTime - p.ArrivalTime
      else s.waitingTime
    let start := waitingTime + p.ArrivalTime
    let turnaround := p.BurstDuration + waitingTime
    let completion := p.BurstDuration + p.ArrivalTime + waitingTime
    let serviceTime := s.serviceTime + p.BurstDuration
    fcfsLoop
      { serviceTime := serviceTime
        waitingTime := waitingTime
        totalWait := s.totalWait + waitingTime
        totalTurnaround := s.totalTurnaround + turnaround
        lastCompletion := completion
        schedule := s.schedule ++
          [⟨p.ProcessID, p.Priority, p.BurstDuration, p.ArrivalTime,
            waitingTime, turnaround, completion⟩]
        gantt := s.gantt ++ [⟨p.ProcessID, start, serviceTime⟩] }
      rest

/-- Output of one scheduler call: the schedule table rows, the Gantt
sequence, and the three aggregate statistics. -/
structure SchedResult where
  schedule : List ScheduleRow
  gantt : List TimeSlice
  aveWait : GoFloat
  aveTurnaround : GoFloat
  aveThroughput : GoFloat
deriving DecidableEq, Repr

/-- `FCFSSchedule` (minus the writer/title rendering): runs the loop from
the zero-initialised locals and computes the aggregates
`totalWait/count`, `totalTurnaround/count`, `count/lastCompletion`. -/
def FCFSSchedule (processes : List Process) : SchedResult :=
  let st := fcfsLoop ⟨0, 0, 0, 0, 0, [], []⟩ processes
  { schedule := st.schedule
    gantt := st.gantt
    aveWait := goDiv (st.totalWait : ℚ) (processes.length : ℚ)
    aveTurnaround := goDiv (st.totalTurnaround : ℚ) (processes.length : ℚ)
    aveThroughput := goDiv (processes.length : ℚ) (st.lastCompletion : ℚ) }

/-- Sum of the durations of the Gantt intervals attributed to `pid`
(the quantity of the work-conservation property). -/
def sumDurFor (pid : Int) (g : List TimeSlice) : Int :=
  (g.filter (fun ts => ts.PID == pid)).foldl
    (fun a ts => a + (ts.Stop - ts.Start)) 0

/-! ## SJFSchedule (main.go lines 244-299) -/

/-- The strict comparator of `SJFSchedule`'s `sort.SliceStable` call:
ascending burst. -/
def burstLess (a b : Process) : Bool := a.BurstDuration < b.BurstDuration

/-- The contents of the caller's slice after `SJFSchedule` returns:
`sort.SliceStable` reorders the caller's backing array in place. -/
def sjfSorted (processes : List Process) : List Process :=
  stableSortBy burstLess processes

/-- Mutable locals of `SJFSchedule`'s loop. -/
structure SJFState where
  currentTime : Int
  totalWait : Int
  totalTurnaround : Int
  schedule : List ScheduleRow
  gantt : List TimeSlice
deriving DecidableEq, Repr

/-- The `for i := range processes` loop of `SJFSchedule`: negative wait is
clamped to 0 and the clock advanced to the arrival (idle CPU), then the
process runs `[currentTime, currentTime + burst)`. -/
def sjfLoop (s : SJFState) : List Process → SJFState
  | [] => s
  | p :: rest =>
    let w0 := s.currentTime - p.ArrivalTime
    let waitingTime := if w0 < 0 then 0 else w0
    let currentTime := if w0 < 0 then p.ArrivalTime else s.currentTime
    let start := currentTime
    let turnaround := p.BurstDuration + waitingTime
    let completion := currentTime + p.BurstDuration
    sjfLoop
      { currentTime := completion
        totalWait := s.totalWait + waitingTime
        totalTurnaround := s.totalTurnaround + turnaround
        schedule := s.schedule ++
          [⟨p.ProcessID, p.Priority, p.BurstDuration, p.ArrivalTime,
            waitingTime, turnaround, completion⟩]
        gantt := s.gantt ++ [⟨p.ProcessID, start, completion⟩] }
      rest

/-- `SJFSchedule`: stable-sorts by ascending burst, then simulates
sequentially; aggregates are `totalWait/count`, `totalTurnaround/count`,
`count/currentTime`. -/
def SJFSchedule (processes : List Process) : SchedResult :=
  let st := sjfLoop ⟨0, 0, 0, [], []⟩ (sjfSorted processes)
  { schedule := st.schedule
    gantt := st.gantt
    aveWait := goDiv (st.totalWait : ℚ) (processes.length : ℚ)
    aveTurnaround := goDiv (st.totalTurnaround : ℚ) (processes.length : ℚ)
    aveThroughput := goDiv (processes.length : ℚ) (st.currentTime : ℚ) }

/-! ## SJFPrioritySchedule (main.go lines 150-237) -/

/-- The strict comparator of `SJFPrioritySchedule`'s `sort.SliceStable`
call on the ready queue: ascending burst, ties by ascending priority. -/
def burstPriorityLess (a b : Process) : Bool :=
  if a.BurstDuration == b.BurstDuration then a.Priority < b.Priority
  else a.BurstDuration < b.BurstDuration

/-- The Go zero value of `Process` (the initial `currentProcess`). -/
def zeroProcess : Process := ⟨0, 0, 0, 0, 0, 0, 0⟩

/-- The completion bookkeeping of `SJFPrioritySchedule`: set the `Exit`
field of the first element of `l` whose id is `pid` (the Go loop over
`originalProcesses` with `break`). -/
def recordExit (l : List Process) (pid t : Int) : List Process :=
  match l with
  | [] => []
  | p :: ps =>
    if p.ProcessID = pid then { p with Exit := t } :: ps
    else p :: recordExit ps pid t

/-- The mutable locals of `SJFPrioritySchedule`'s tick loop. -/
structure PrioState where
  currentTime : Int
  completed : Nat
  isRunning : Bool
  currentProcess : Process
  remainingTime : Int
  queue : List Process
  gantt : List TimeSlice
  originalProcesses : List Process
deriving DecidableEq, Repr

/-- One iteration of `SJFPrioritySchedule`'s main loop: admit this tick's
arrivals, detect completion (`remainingTime == 0`), then either dispatch
the head of the sorted ready queue or (`else if isRunning`) decrement the
remaining time, and advance the clock.  A process dispatched this tick is
not decremented this tick, exactly as in the source's `else if`. -/
def prioTick (processes : List Process) (s : PrioState) : PrioState :=
  let queue1 := s.queue ++
    processes.filter (fun p => p.ArrivalTime == s.currentTime)
  let s1 : PrioState :=
    if s.isRunning ∧ s.remainingTime = 0 then
      { s with
        isRunning := false
        completed := s.completed + 1
        originalProcesses :=
          recordExit s.originalProcesses s.currentProcess.ProcessID
            s.currentTime
        gantt := s.gantt ++
          [⟨s.currentProcess.ProcessID,
            s.currentTime - s.currentProcess.BurstDuration, s.currentTime⟩]
        queue := queue1 }
    else { s with queue := queue1 }
  let s2 : PrioState :=
    if ¬ s1.isRunning ∧ s1.queue ≠ [] then
      let sorted := stableSortBy burstPriorityLess s1.queue
      { s1 with
        currentProcess := sorted.headD zeroProcess
        remainingTime := (sorted.headD zeroProcess).BurstDuration
        isRunning := true
        queue := sorted.tail }
    else if s1.isRunning then { s1 with remainingTime := s1.remainingTime - 1 }
    else s1
  { s2 with currentTime := s2.currentTime + 1 }

/-- `SJFPrioritySchedule`'s main loop (`for completedProcesses <
len(processes)`), with explicit fuel; `none` means the fuel ran out
before every process completed. -/
def prioLoop (processes : List Process) : Nat → PrioState → Option PrioState
  | 0, s => if s.completed < processes.length then none else some s
  | fuel + 1, s =>
    if s.completed < processes.length then
      prioLoop processes fuel (prioTick processes s)
    else some s

/-- Initial state of `SJFPrioritySchedule`: `originalProcesses` is a copy
of the input. -/
def prioInit (processes : List Process) : PrioState :=
  ⟨0, 0, false, zeroProcess, 0, [], [], processes⟩

/-- The simulation part of `SJFPrioritySchedule`. -/
def prioRun (fuel : Nat) (processes : List Process) : Option PrioState :=
  prioLoop processes fuel (prioInit processes)

/-- One output row of `SJFPrioritySchedule`'s table: built from an
element of `originalProcesses` with wait `Exit - ArrivalTime -
BurstDuration` and turnaround `Exit - ArrivalTime`. -/
def prioRowOf (p : Process) : ScheduleRow :=
  ⟨p.ProcessID, p.Priority, p.BurstDuration, p.ArrivalTime,
   p.Exit - p.ArrivalTime - p.BurstDuration, p.Exit - p.ArrivalTime, p.Exit⟩

/-- The rows of `SJFPrioritySchedule`'s table: one per element of
`originalProcesses`, in that (input) order. -/
def prioRows (st : PrioState) : List ScheduleRow :=
  st.originalProcesses.map prioRowOf

/-- `SJFPrioritySchedule` (minus rendering): the simulation followed by
the post-hoc metrics over `originalProcesses`. -/
def SJFPrioritySchedule (fuel : Nat) (processes : List Process) :
    Option SchedResult :=
  (prioRun fuel processes).map fun st =>
    let totalWaiting : Int := (st.originalProcesses.map
      (fun p => p.Exit - p.ArrivalTime - p.BurstDuration)).foldl (· + ·) 0
    let totalTurnaround : Int := (st.originalProcesses.map
      (fun p => p.Exit - p.ArrivalTime)).foldl (· + ·) 0
    { schedule := prioRows st
      gantt := st.gantt
      aveWait := goDiv (totalWaiting : ℚ) (processes.length : ℚ)
      aveTurnaround := goDiv (totalTurnaround : ℚ) (processes.length : ℚ)
      aveThroughput := goDiv (processes.length : ℚ) (st.currentTime : ℚ) }

/-! ## RRSchedule (main.go lines 303-396) -/

/-- The strict comparator of `RRSchedule`'s `sort.SliceStable` call:
ascending arrival. -/
def arrivalLess (a b : Process) : Bool := a.ArrivalTime < b.ArrivalTime

/-- The contents of the caller's slice after `RRSchedule` returns:
`sort.SliceStable` reorders the caller's backing array in place. -/
def rrSorted (processes : List Process) : List Process :=
  stableSortBy arrivalLess processes

/-- The `originalProcesses` map of `RRSchedule`, built by inserting the
(arrival-sorted) processes in order, later ids overwriting earlier ones:
a lookup returns the last occurrence. -/
def lookupPid (l : List Process) (pid : Int) : Process :=
  (l.reverse.find? (fun p => p.ProcessID == pid)).getD zeroProcess

/-- The mutable locals of `RRSchedule`'s main loop. `pending` is the
local `processes` slice (already arrival-sorted), consumed from the
front as processes arrive. -/
structure RRState where
  clock : Int
  completed : Int
  pending : List Process
  queue : List Process
  gantt : List TimeSlice
  schedule : List Process
deriving DecidableEq, Repr

/-- One iteration of `RRSchedule`'s main loop: admit the arrived prefix
of `pending`, idle one tick if the queue is empty, otherwise run the head
for `min(burst, quantum)` with quantum 4, requeueing it if burst
remains. -/
def rrStep (orig : List Process) (s : RRState) : RRState :=
  let admitted := s.pending.takeWhile (fun p => p.ArrivalTime ≤ s.clock)
  let pending2 := s.pending.dropWhile (fun p => p.ArrivalTime ≤ s.clock)
  match s.queue ++ admitted with
  | [] => { s with clock := s.clock + 1, pending := pending2 }
  | cur :: rest =>
    if cur.BurstDuration > 4 then
      { s with
        clock := s.clock + 4
        pending := pending2
        queue := rest ++ [{ cur with BurstDuration := cur.BurstDuration - 4 }]
        gantt := s.gantt ++ [⟨cur.ProcessID, s.clock, s.clock + 4⟩] }
    else
      let ex := s.clock + cur.BurstDuration
      let o := lookupPid orig cur.ProcessID
      { s with
        clock := ex
        completed := s.completed + 1
        pending := pending2
        queue := rest
        gantt := s.gantt ++ [⟨cur.ProcessID, s.clock, ex⟩]
        schedule := s.schedule ++
          [{ cur with
              Exit := ex
              Turnaround := ex - o.ArrivalTime
              Wait := ex - o.ArrivalTime - o.BurstDuration }] }

/-- `RRSchedule`'s main loop (`for len(processes) > 0 || len(queue) > 0`)
with explicit fuel. -/
def rrLoop (orig : List Process) : Nat → RRState → Option RRState
  | 0, s => if s.pending = [] ∧ s.queue = [] then some s else none
  | fuel + 1, s =>
    if s.pending = [] ∧ s.queue = [] then some s
    else rrLoop orig fuel (rrStep orig s)

/-- The simulation part of `RRSchedule`: sort by arrival, build the
original-record lookup from the sorted list, run the loop. -/
def rrRun (fuel : Nat) (processes : List Process) : Option RRState :=
  let sorted := rrSorted processes
  rrLoop sorted fuel ⟨0, 0, sorted, [], [], []⟩

/-- One output row of `RRSchedule`'s table: fields of the completed copy
except the burst column, which shows the original burst from the lookup
map. -/
def rrRowOf (orig : List Process) (p : Process) : ScheduleRow :=
  ⟨p.ProcessID, p.Priority, (lookupPid orig p.ProcessID).BurstDuration,
   p.ArrivalTime, p.Wait, p.Turnaround, p.Exit⟩

/-- `RRSchedule` (minus rendering): simulation, then averages over the
completed list and throughput `completed/clock`. -/
def RRSchedule (fuel : Nat) (processes : List Process) :
    Option SchedResult :=
  (rrRun fuel processes).map fun st =>
    let totalWait : Int := (st.schedule.map (fun p => p.Wait)).foldl (· + ·) 0
    let totalTurnaround : Int :=
      (st.schedule.map (fun p => p.Turnaround)).foldl (· + ·) 0
    { schedule := st.schedule.map (rrRowOf (rrSorted processes))
      gantt := st.gantt
      aveWait := goDiv (totalWait : ℚ) (st.completed : ℚ)
      aveTurnaround := goDiv (totalTurnaround : ℚ) (st.completed : ℚ)
      aveThroughput := goDiv (st.completed : ℚ) (st.clock : ℚ) }

/-! ## Claim-level definitions -/

/-- The aggregate part of a scheduler's report, as the spec's output
contract describes it: either an explicit not-applicable marker or the
three statistics.  The Go code never takes the `noData` branch: it
unconditionally computes the three divisions. -/
inductive AggReport where
  | noData
  | stats (aveWait aveTurnaround aveThroughput : GoFloat)
deriving DecidableEq, Repr

/-- The aggregates a scheduler actually reports: always the three
computed statistics (there is no empty-input branch in the source). -/
def reportOf (r : SchedResult) : AggReport :=
  AggReport.stats r.aveWait r.aveTurnaround r.aveThroughput

/-- `skelEq a b`: `b` agrees with `a` on every input field (id, priority,
burst, arrival); only the computed fields may differ. -/
def skelEq (a b : Process) : Prop :=
  b.ProcessID = a.ProcessID ∧ b.Priority = a.Priority ∧
  b.BurstDuration = a.BurstDuration ∧ b.ArrivalTime = a.ArrivalTime

/-- The spec's end-to-end scenario: P1 arrival 0 burst 5, P2 arrival 1
burst 3, P3 arrival 2 burst 8, priority 0 for all. -/
def ex3 : List Process :=
  [⟨1, 0, 5, 0, 0, 0, 0⟩, ⟨2, 1, 3, 0, 0, 0, 0⟩, ⟨3, 2, 8, 0, 0, 0, 0⟩]

/-- Two processes both arriving at time 0 (bursts 5 and 3). -/
def exTwoZero : List Process :=
  [⟨1, 0, 5, 0, 0, 0, 0⟩, ⟨2, 0, 3, 0, 0, 0, 0⟩]

/-- A single process arriving after time 0 (arrival 2, burst 3). -/
def exLateArrival : List Process := [⟨1, 2, 3, 0, 0, 0, 0⟩]

/-- A single process with arrival 0 and burst 1. -/
def exUnit : List Process := [⟨1, 0, 1, 0, 0, 0, 0⟩]

/-- The final state of `rrRun 100 ex3` (quantum-4 round robin on the
end-to-end scenario). -/
def rrFinal3 : RRState :=
  ⟨16, 3, [], [],
   [⟨1, 0, 4⟩, ⟨1, 4, 5⟩, ⟨2, 5, 8⟩, ⟨3, 8, 12⟩, ⟨3, 12, 16⟩],
   [⟨1, 0, 1, 0, 5, 5, 0⟩, ⟨2, 1, 3, 0, 8, 7, 4⟩, ⟨3, 2, 4, 0, 16, 14, 6⟩]⟩

/-- The final state of `prioRun 10 exUnit` (tick simulation of a single
arrival-0 burst-1 process). -/
def prioFinal1 : PrioState :=
  ⟨3, 1, false, ⟨1, 0, 1, 0, 0, 0, 0⟩, 0, [], [⟨1, 1, 2⟩],
   [⟨1, 0, 1, 0, 2, 0, 0⟩]⟩

/-! ## Theorems -/

/-- C1: the claim says `FCFSSchedule` computes every process's wait fresh
as `max(0, serviceTime - arrival)`, including when `arrival = 0`.  The
code does not: on `exTwoZero` the second process (arrival 0, reached when
`serviceTime = 5`) keeps the stale wait 0, although
`max(0, 5 - 0) = 5 ≠ 0`; its start is reported as 0 and the Gantt stop as
the running burst sum 8 rather than `start + burst`. -/
theorem fcfs_wait_not_recomputed_at_zero_arrival :
    (FCFSSchedule exTwoZero).schedule =
      [⟨1, 0, 5, 0, 0, 5, 5⟩, ⟨2, 0, 3, 0, 0, 3, 3⟩] ∧
    (FCFSSchedule exTwoZero).gantt = [⟨1, 0, 5⟩, ⟨2, 0, 8⟩] ∧
    max (0 : Int) (5 - 0) = 5 ∧ (5 : Int) ≠ 0 := by decide

/-- C2: the claim says a process dequeued and started at tick `t`
completes with `exit = t + burst` and interval `[t, t + burst)`.  The
code's `else if` skips the decrement on the start tick, so on `exUnit`
(one process, arrival 0, burst 1, started at tick 0) the recorded exit is
2 and the interval `[1, 2)`, not exit `0 + 1 = 1` with interval
`[0, 1)`. -/
theorem prio_exit_off_by_one :
    prioRun 10 exUnit = some prioFinal1 ∧
    prioFinal1.originalProcesses = [⟨1, 0, 1, 0, 2, 0, 0⟩] ∧
    prioFinal1.gantt = [⟨1, 1, 2⟩] ∧ (2 : Int) ≠ 0 + 1 := by decide

/-- C3: the claim says every completed process's reported wait is `≥ 0`
and its turnaround `≥ burst` for every scheduler on valid input.
`FCFSSchedule` violates it: on `exLateArrival` (arrival 2, burst 3) it
reports wait `-2 < 0` and turnaround `1 < 3`, because the wait
`serviceTime - arrival` is never clamped at 0. -/
theorem fcfs_negative_wait :
    (FCFSSchedule exLateArrival).schedule = [⟨1, 0, 3, 2, -2, 1, 3⟩] ∧
    (-2 : Int) < 0 ∧ (1 : Int) < 3 := by decide

/-- C4: the claim says the interval durations attributed to a process id
sum to its burst for every scheduler.  `FCFSSchedule` violates it: on
`exTwoZero` the second process (burst 3) gets the single interval
`[0, 8)`, so its attributed duration is `8 ≠ 3`. -/
theorem fcfs_work_conservation_violated :
    (FCFSSchedule exTwoZero).gantt = [⟨1, 0, 5⟩, ⟨2, 0, 8⟩] ∧
    sumDurFor 2 (FCFSSchedule exTwoZero).gantt = 8 ∧ (8 : Int) ≠ 3 := by decide

/-- C5: `SJFSchedule` stable-sorts `ex3` by ascending burst into order
P2, P1, P3 and produces intervals `[1,4)P2 [4,9)P1 [9,17)P3`, waits
0, 4, 7, turnarounds 3, 9, 15, and throughput `3/17`, exactly as
claimed. -/
theorem sjf_end_to_end :
    sjfSorted ex3 =
      [⟨2, 1, 3, 0, 0, 0, 0⟩, ⟨1, 0, 5, 0, 0, 0, 0⟩, ⟨3, 2, 8, 0, 0, 0, 0⟩] ∧
    SJFSchedule ex3 =
      { schedule :=
          [⟨2, 0, 3, 1, 0, 3, 4⟩, ⟨1, 0, 5, 0, 4, 9, 9⟩,
           ⟨3, 0, 8, 2, 7, 15, 17⟩]
        gantt := [⟨2, 1, 4⟩, ⟨1, 4, 9⟩, ⟨3, 9, 17⟩]
        aveWait := goDiv 11 3
        aveTurnaround := goDiv 27 3
        aveThroughput := goDiv 3 17 } := by
  exact ⟨by rfl, by rfl⟩

/-- C6: `RRSchedule` with quantum 4 on `ex3` produces intervals
`[0,4)P1 [4,5)P1 [5,8)P2 [8,12)P3 [12,16)P3`, waits 0, 4, 6, turnarounds
5, 7, 14, average wait `10/3` (3.33), average turnaround `26/3` (8.67)
and throughput `3/16`, exactly as claimed. -/
theorem rr_end_to_end :
    (RRSchedule 100 ex3).map SchedResult.schedule =
      some [⟨1, 0, 5, 0, 0, 5, 5⟩, ⟨2, 0, 3, 1, 4, 7, 8⟩,
            ⟨3, 0, 8, 2, 6, 14, 16⟩] ∧
    (RRSchedule 100 ex3).map SchedResult.gantt =
      some [⟨1, 0, 4⟩, ⟨1, 4, 5⟩, ⟨2, 5, 8⟩, ⟨3, 8, 12⟩, ⟨3, 12, 16⟩] ∧
    (RRSchedule 100 ex3).map SchedResult.aveWait = some (goDiv 10 3) ∧
    (RRSchedule 100 ex3).map SchedResult.aveTurnaround = some (goDiv 26 3) ∧
    (RRSchedule 100 ex3).map SchedResult.aveThroughput = some (goDiv 3 16) := by
  refine ⟨by decide, by decide, by rfl, by rfl, by rfl⟩

/-- C8 counterexample: the claim says every scheduler leaves the caller's
input slice unchanged, but `SJFSchedule`'s in-place `sort.SliceStable`
leaves `ex3` reordered by burst, not in its original order. -/
theorem sjf_mutates_input : sjfSorted ex3 ≠ ex3 := by decide

/-- C9 counterexample: the claim says the schedulers special-case the
empty-input aggregates to a "no data" report; in the code there is no
such branch — on `[]` `FCFSSchedule` emits an empty Gantt sequence but
computes all three aggregates by zero-divisor divisions (NaN), so its
report is the stats triple of non-finite values, not the `noData`
marker. -/
theorem empty_input_not_special_cased :
    (FCFSSchedule []).gantt = [] ∧
    reportOf (FCFSSchedule []) =
      AggReport.stats GoFloat.undef GoFloat.undef GoFloat.undef ∧
    reportOf (FCFSSchedule []) ≠ AggReport.noData := by decide

/-- C9 (amended): on empty input every scheduler emits an empty Gantt
sequence and returns normally, but no aggregate is special-cased: each of
the three statistics is a division with zero divisor (NaN in Go), which
propagates into the report. -/
theorem empty_input_gantt_empty_aggregates_undefined :
    (FCFSSchedule []).gantt = [] ∧
    reportOf (FCFSSchedule []) =
      AggReport.stats GoFloat.undef GoFloat.undef GoFloat.undef ∧
    (SJFSchedule []).gantt = [] ∧
    reportOf (SJFSchedule []) =
      AggReport.stats GoFloat.undef GoFloat.undef GoFloat.undef ∧
    (SJFPrioritySchedule 1 []).map SchedResult.gantt = some [] ∧
    (SJFPrioritySchedule 1 []).map reportOf =
      some (AggReport.stats GoFloat.undef GoFloat.undef GoFloat.undef) ∧
    (RRSchedule 1 []).map SchedResult.gantt = some [] ∧
    (RRSchedule 1 []).map reportOf =
      some (AggReport.stats GoFloat.undef GoFloat.undef GoFloat.undef) := by
  decide

theorem rrStep_gantt_cases (orig : List Process) (s : RRState) :
    (rrStep orig s).gantt = s.gantt ∨
    ∃ pid a b, (rrStep orig s).gantt = s.gantt ++ [⟨pid, a, b⟩] ∧ b - a ≤ 4 := by
  unfold rrStep
  dsimp only
  rcases s.queue ++ s.pending.takeWhile (fun p => p.ArrivalTime ≤ s.clock)
    with _ | ⟨cur, rest⟩
  · exact Or.inl rfl
  · dsimp only
    by_cases hb : cur.BurstDuration > 4
    · rw [if_pos hb]
      exact Or.inr ⟨cur.ProcessID, s.clock, s.clock + 4, rfl, by omega⟩
    · rw [if_neg hb]
      exact Or.inr ⟨cur.ProcessID, s.clock, s.clock + cur.BurstDuration, rfl,
        by omega⟩

theorem rrStep_gantt_bound (orig : List Process) (s : RRState)
    (h : ∀ ts ∈ s.gantt, ts.Stop - ts.Start ≤ 4) :
    ∀ ts ∈ (rrStep orig s).gantt, ts.Stop - ts.Start ≤ 4 := by
  intro ts hts
  rcases rrStep_gantt_cases orig s with hc | ⟨pid, a, b, hc, hab⟩
  · exact h ts (hc ▸ hts)
  · rw [hc] at hts
    rcases List.mem_append.1 hts with h1 | h2
    · exact h ts h1
    · rcases List.mem_singleton.1 h2 with rfl
      simpa using hab

theorem rrLoop_gantt_bound (orig : List Process) :
    ∀ (fuel : Nat) (s t : RRState), rrLoop orig fuel s = some t →
      (∀ ts ∈ s.gantt, ts.Stop - ts.Start ≤ 4) →
      ∀ ts ∈ t.gantt, ts.Stop - ts.Start ≤ 4 := by
  intro fuel
  induction fuel with
  | zero =>
    intro s t h hs
    unfold rrLoop at h
    split at h
    · cases h; exact hs
    · cases h
  | succ n ih =>
    intro s t h hs
    unfold rrLoop at h
    split at h
    · cases h; exact hs
    · exact ih _ _ h (rrStep_gantt_bound orig s hs)

/-- C7: for every input and every fuel on which `RRSchedule`'s main loop
terminates, no emitted Gantt interval has duration `Stop - Start`
greater than the fixed quantum 4: a slice is exactly the quantum when the
running process keeps burst (and is requeued), and is the remaining burst
`≤ 4` on its final (completing) slice. -/
theorem rr_quantum_bound (fuel : Nat) (processes : List Process)
    (st : RRState) (h : rrRun fuel processes = some st) :
    ∀ ts ∈ st.gantt, ts.Stop - ts.Start ≤ 4 := by
  unfold rrRun at h
  refine rrLoop_gantt_bound _ fuel _ st h ?_
  intro ts hts
  cases hts

/-- Witness for C7: the bound instantiated on the spec's end-to-end
scenario (whose round-robin run terminates in the state `rrFinal3`), at
its first emitted interval `[0, 4)` of process 1. -/
theorem rr_quantum_bound_witness :
    TimeSlice.Stop ⟨1, 0, 4⟩ - TimeSlice.Start ⟨1, 0, 4⟩ ≤ 4 :=
  rr_quantum_bound 100 ex3 rrFinal3 (by decide) ⟨1, 0, 4⟩ (by decide)

theorem insertBy_perm (less : Process → Process → Bool) (p : Process)
    (l : List Process) : (insertBy less p l).Perm (p :: l) := by
  induction l with
  | nil => exact List.Perm.refl _
  | cons q qs ih =>
    unfold insertBy
    by_cases h : less p q
    · rw [if_pos h]
    · rw [if_neg h]
      exact (ih.cons q).trans (List.Perm.swap p q qs)

theorem foldl_insertBy_perm (less : Process → Process → Bool) :
    ∀ (l acc : List Process),
      (l.foldl (fun a p => insertBy less p a) acc).Perm (acc ++ l) := by
  intro l
  induction l with
  | nil => intro acc; simp
  | cons p ps ih =>
    intro acc
    refine (ih (insertBy less p acc)).trans ?_
    refine (((insertBy_perm less p acc).append_right ps).trans ?_)
    exact List.perm_middle.symm

theorem stableSortBy_perm (less : Process → Process → Bool)
    (l : List Process) : (stableSortBy less l).Perm l := by
  simpa using foldl_insertBy_perm less l []

/-- C8 (amended): after a scheduler call the caller's slice holds the
same records but not necessarily in the same order — `SJFSchedule` and
`RRSchedule` permute it via their in-place stable sorts (by burst and by
arrival respectively), while `FCFSSchedule` and `SJFPrioritySchedule`
perform no writes through it. -/
theorem schedulers_permute_input (processes : List Process) :
    (sjfSorted processes).Perm processes ∧
    (rrSorted processes).Perm processes :=
  ⟨stableSortBy_perm burstLess processes,
   stableSortBy_perm arrivalLess processes⟩

theorem skelEq_refl_list (l : List Process) : List.Forall₂ skelEq l l :=
  List.forall₂_same.2 (fun _ _ => ⟨rfl, rfl, rfl, rfl⟩)

theorem skelEq_trans_list :
    ∀ {a b c : List Process}, List.Forall₂ skelEq a b →
      List.Forall₂ skelEq b c → List.Forall₂ skelEq a c := by
  intro a b c hab
  induction hab generalizing c with
  | nil =>
    intro hbc
    cases hbc
    exact List.Forall₂.nil
  | cons hxy _ ih =>
    intro hbc
    cases hbc with
    | cons hyz hrest =>
      exact List.Forall₂.cons
        ⟨hyz.1.trans hxy.1, hyz.2.1.trans hxy.2.1,
         hyz.2.2.1.trans hxy.2.2.1, hyz.2.2.2.trans hxy.2.2.2⟩
        (ih hrest)

theorem recordExit_skel (pid t : Int) :
    ∀ l : List Process, List.Forall₂ skelEq l (recordExit l pid t) := by
  intro l
  induction l with
  | nil => exact List.Forall₂.nil
  | cons p ps ih =>
    unfold recordExit
    by_cases h : p.ProcessID = pid
    · rw [if_pos h]
      exact List.Forall₂.cons ⟨rfl, rfl, rfl, rfl⟩ (skelEq_refl_list ps)
    · rw [if_neg h]
      exact List.Forall₂.cons ⟨rfl, rfl, rfl, rfl⟩ ih

theorem prioTick_orig_cases (processes : List Process) (s : PrioState) :
    (prioTick processes s).originalProcesses = s.originalProcesses ∨
    ∃ pid t, (prioTick processes s).originalProcesses =
      recordExit s.originalProcesses pid t := by
  unfold prioTick
  dsimp only
  by_cases h1 : s.isRunning = true ∧ s.remainingTime = 0
  · rw [if_pos h1]
    dsimp only
    split
    · exact Or.inr ⟨s.currentProcess.ProcessID, s.currentTime, rfl⟩
    · split
      · exact Or.inr ⟨s.currentProcess.ProcessID, s.currentTime, rfl⟩
      · exact Or.inr ⟨s.currentProcess.ProcessID, s.currentTime, rfl⟩
  · rw [if_neg h1]
    dsimp only
    split
    · exact Or.inl rfl
    · split
      · exact Or.inl rfl
      · exact Or.inl rfl

theorem prioTick_skel (processes input : List Process) (s : PrioState)
    (h : List.Forall₂ skelEq input s.originalProcesses) :
    List.Forall₂ skelEq input (prioTick processes s).originalProcesses := by
  rcases prioTick_orig_cases processes s with hc | ⟨pid, t, hc⟩
  · rw [hc]; exact h
  · rw [hc]
    exact skelEq_trans_list h (recordExit_skel pid t s.originalProcesses)

theorem prioLoop_skel (processes input : List Process) :
    ∀ (fuel : Nat) (s t : PrioState), prioLoop processes fuel s = some t →
      List.Forall₂ skelEq input s.originalProcesses →
      List.Forall₂ skelEq input t.originalProcesses := by
  intro fuel
  induction fuel with
  | zero =>
    intro s t h hs
    unfold prioLoop at h
    split at h
    · cases h
    · cases h; exact hs
  | succ n ih =>
    intro s t h hs
    unfold prioLoop at h
    split at h
    · exact ih _ _ h (prioTick_skel processes input s hs)
    · cases h; exact hs

/-- C10: whenever `SJFPrioritySchedule`'s tick loop terminates, the final
`originalProcesses` list agrees with the input pointwise (same length,
same order, same id/priority/burst/arrival in every position; only `Exit`
was updated), and the emitted table rows are exactly the map of
`prioRowOf` over it — i.e. rows appear in original input order with wait
`Exit - ArrivalTime - BurstDuration` and turnaround
`Exit - ArrivalTime` taken from the exit recorded for that id. -/
theorem prio_rows_follow_input_order (fuel : Nat)
    (processes : List Process) (st : PrioState)
    (h : prioRun fuel processes = some st) :
    List.Forall₂ skelEq processes st.originalProcesses ∧
    prioRows st = st.originalProcesses.map prioRowOf :=
  ⟨prioLoop_skel processes processes fuel (prioInit processes) st h
    (skelEq_refl_list processes), rfl⟩

/-- Witness for C10: the statement instantiated on a one-process input,
whose tick loop terminates in the state `prioFinal1`. -/
theorem prio_rows_follow_input_order_witness :
    List.Forall₂ skelEq exUnit prioFinal1.originalProcesses ∧
    prioRows prioFinal1 = prioFinal1.originalProcesses.map prioRowOf :=
  prio_rows_follow_input_order 10 exUnit prioFinal1 (by decide)

end Project1
